import Mathlib

/-!
Verification of the file-organizer program (`automation_Python_Script.py`).

The program scans one directory, classifies each regular file by its
extension, moves it into `organized_files/<category>/`, resolving name
collisions with a timestamp suffix, and writes a per-category count report.

We shallowly embed the program: Python strings become `List Char` (ASCII
case mapping), paths become lists of parts, the destination tree becomes an
association list of entries, `datetime.now()` and OS errors become explicit
oracles, and each method of `FileOrganizer` becomes a Lean function that is
a direct transcription of its body.
-/

/-- The characters of a string literal; Python strings are modelled as `List Char`. -/
def chars (s : String) : List Char := s.data

/-- `str.lower` on one character, for the ASCII range the program's tables use. -/
def pyLowerChar (c : Char) : Char :=
  if 65 ≤ c.toNat ∧ c.toNat ≤ 90 then Char.ofNat (c.toNat + 32) else c

/-- `str.lower`: lowercase every character. -/
def pyLower (s : List Char) : List Char := s.map pyLowerChar

/-- `str.upper` on one character (used by `str.capitalize`). -/
def pyUpperChar (c : Char) : Char :=
  if 97 ≤ c.toNat ∧ c.toNat ≤ 122 then Char.ofNat (c.toNat - 32) else c

/-- `str.capitalize`: first character uppercased, the rest lowercased. -/
def pyCapitalize (s : List Char) : List Char :=
  match s with
  | [] => []
  | c :: cs => pyUpperChar c :: pyLower cs

/-- `self.categories`: the fixed extension table, in dict insertion order
(`documents`, `images`, `audio`, `videos`, `archives`, `code`). -/
def categories : List (List Char × List (List Char)) :=
  [ (chars "documents",
      [chars ".pdf", chars ".doc", chars ".docx", chars ".txt", chars ".rtf", chars ".odt"]),
    (chars "images",
      [chars ".jpg", chars ".jpeg", chars ".png", chars ".gif", chars ".bmp", chars ".svg"]),
    (chars "audio",
      [chars ".mp3", chars ".wav", chars ".flac", chars ".m4a"]),
    (chars "videos",
      [chars ".mp4", chars ".avi", chars ".mkv", chars ".mov"]),
    (chars "archives",
      [chars ".zip", chars ".rar", chars ".7z", chars ".tar", chars ".gz"]),
    (chars "code",
      [chars ".py", chars ".js", chars ".html", chars ".css", chars ".java", chars ".cpp"]) ]

/-- The loop of `get_category`: first table row whose set contains the
lowercased extension wins; `misc` if none does. -/
def getCategoryGo (ext : List Char) : List (List Char × List (List Char)) → List Char
  | [] => chars "misc"
  | (cat, exts) :: rest =>
      if pyLower ext ∈ exts then cat else getCategoryGo ext rest

/-- `FileOrganizer.get_category`. -/
def get_category (ext : List Char) : List Char := getCategoryGo ext categories

theorem pyLowerChar_idem (c : Char) : pyLowerChar (pyLowerChar c) = pyLowerChar c := by
  unfold pyLowerChar
  by_cases h : 65 ≤ c.toNat ∧ c.toNat ≤ 90
  · simp only [if_pos h]
    obtain ⟨h1, h2⟩ := h
    set n := c.toNat with hn
    interval_cases n <;> decide
  · simp only [if_neg h]

theorem pyLower_idem (s : List Char) : pyLower (pyLower s) = pyLower s := by
  unfold pyLower
  rw [List.map_map]
  apply List.map_congr_left
  intro c _
  exact pyLowerChar_idem c

theorem getCategoryGo_lower (ext : List Char) (t : List (List Char × List (List Char))) :
    getCategoryGo ext t = getCategoryGo (pyLower ext) t := by
  induction t with
  | nil => rfl
  | cons p rest ih =>
      obtain ⟨cat, exts⟩ := p
      simp only [getCategoryGo, pyLower_idem, ih]

/-- Index of the last `'.'` in a name (`str.rfind`), `none` if there is no dot. -/
def lastDotIdx : List Char → Option Nat
  | [] => none
  | c :: cs =>
      match lastDotIdx cs with
      | some i => some (i + 1)
      | none => if c = '.' then some 0 else none

/-- `PurePath.suffix`: the part from the last dot on, but only when that dot
is neither the first nor the last character of the name; otherwise empty. -/
def pySuffix (name : List Char) : List Char :=
  match lastDotIdx name with
  | some i => if 0 < i ∧ i < name.length - 1 then name.drop i else []
  | none => []

/-- `PurePath.stem`: the name with `pySuffix` removed (same guard). -/
def pyStem (name : List Char) : List Char :=
  match lastDotIdx name with
  | some i => if 0 < i ∧ i < name.length - 1 then name.take i else name
  | none => name

/-- The collision rename `f"{base_name}_{timestamp}{extension}"`. -/
def collisionName (name ts : List Char) : List Char :=
  pyStem name ++ '_' :: ts ++ pySuffix name

theorem lastDotIdx_eq_none (s : List Char) : lastDotIdx s = none ↔ '.' ∉ s := by
  induction s with
  | nil => simp [lastDotIdx]
  | cons c cs ih =>
      simp only [lastDotIdx, List.mem_cons]
      cases h : lastDotIdx cs with
      | some i => simp [← ih, h]
      | none =>
          rw [ih] at h
          by_cases hc : c = '.' <;> simp [hc, h, eq_comm]

theorem lastDotIdx_append (s t : List Char) :
    lastDotIdx (s ++ t) =
      match lastDotIdx t with
      | some j => some (s.length + j)
      | none => lastDotIdx s := by
  induction s with
  | nil => cases h : lastDotIdx t <;> simp [h, lastDotIdx]
  | cons c cs ih =>
      cases h : lastDotIdx t with
      | some j =>
          have ih2 : lastDotIdx (cs ++ t) = some (cs.length + j) := by rw [ih, h]
          simp only [List.cons_append, lastDotIdx, List.append_eq, ih2,
            List.length_cons, Option.some.injEq]
          omega
      | none =>
          have ih2 : lastDotIdx (cs ++ t) = lastDotIdx cs := by rw [ih, h]
          simp only [List.cons_append, lastDotIdx, List.append_eq, ih2]

theorem lastDotIdx_lt (s : List Char) (i : Nat) (h : lastDotIdx s = some i) :
    i < s.length := by
  induction s generalizing i with
  | nil => simp [lastDotIdx] at h
  | cons c cs ih =>
      simp only [lastDotIdx] at h
      cases h2 : lastDotIdx cs with
      | some j =>
          rw [h2] at h
          simp only [Option.some.injEq] at h
          have := ih j h2
          simp only [List.length_cons]
          omega
      | none =>
          rw [h2] at h
          by_cases hc : c = '.'
          · simp [hc] at h
            simp [← h]
          · simp [hc] at h

theorem lastDotIdx_drop (s : List Char) (i : Nat) (h : lastDotIdx s = some i) :
    ∃ r, s.drop i = '.' :: r ∧ '.' ∉ r := by
  induction s generalizing i with
  | nil => simp [lastDotIdx] at h
  | cons c cs ih =>
      simp only [lastDotIdx] at h
      cases h2 : lastDotIdx cs with
      | some j =>
          rw [h2] at h
          simp only [Option.some.injEq] at h
          obtain ⟨r, hr1, hr2⟩ := ih j h2
          exact ⟨r, by simp [← h, hr1], hr2⟩
      | none =>
          rw [h2] at h
          by_cases hc : c = '.'
          · simp [hc] at h
            subst hc
            exact ⟨cs, by simp [← h], (lastDotIdx_eq_none cs).mp h2⟩
          · simp [hc] at h

theorem pyStem_append_pySuffix (n : List Char) : pyStem n ++ pySuffix n = n := by
  unfold pyStem pySuffix
  cases h : lastDotIdx n with
  | some i =>
      by_cases hg : 0 < i ∧ i < n.length - 1
      · simp [hg, List.take_append_drop]
      · simp [hg]
  | none => simp

theorem pySuffix_of_no_dot (n : List Char) (h : '.' ∉ n) : pySuffix n = [] := by
  unfold pySuffix
  rw [(lastDotIdx_eq_none n).mpr h]

theorem pySuffix_eq_of_idx (n : List Char) (i : Nat) (h : lastDotIdx n = some i) :
    pySuffix n = if 0 < i ∧ i < n.length - 1 then n.drop i else [] := by
  unfold pySuffix
  rw [h]

theorem pyStem_eq_of_idx (n : List Char) (i : Nat) (h : lastDotIdx n = some i) :
    pyStem n = if 0 < i ∧ i < n.length - 1 then n.take i else n := by
  unfold pyStem
  rw [h]

theorem pySuffix_proper (p r : List Char) (hp : p ≠ []) (hr : '.' ∉ r)
    (hrne : r ≠ []) : pySuffix (p ++ '.' :: r) = '.' :: r := by
  have hdot : lastDotIdx ('.' :: r) = some 0 := by
    simp [lastDotIdx, (lastDotIdx_eq_none r).mpr hr]
  have hidx : lastDotIdx (p ++ '.' :: r) = some p.length := by
    rw [lastDotIdx_append, hdot]
    simp
  rw [pySuffix_eq_of_idx _ _ hidx]
  have hplen : 0 < p.length := List.length_pos.mpr hp
  have hrlen : 0 < r.length := List.length_pos.mpr hrne
  have hg : 0 < p.length ∧ p.length < (p ++ '.' :: r).length - 1 := by
    constructor
    · exact hplen
    · simp only [List.length_append, List.length_cons]
      omega
  rw [if_pos hg, List.drop_left]

theorem pySuffix_leading (r : List Char) (hr : '.' ∉ r) :
    pySuffix ('.' :: r) = [] := by
  have hdot : lastDotIdx ('.' :: r) = some 0 := by
    simp [lastDotIdx, (lastDotIdx_eq_none r).mpr hr]
  rw [pySuffix_eq_of_idx _ _ hdot]
  simp

theorem pySuffix_trailing (n : List Char) : pySuffix (n ++ ['.']) = [] := by
  have hdot : lastDotIdx ['.'] = some 0 := by decide
  have hidx : lastDotIdx (n ++ ['.']) = some n.length := by
    rw [lastDotIdx_append, hdot]
    simp
  rw [pySuffix_eq_of_idx _ _ hidx]
  have hng : ¬ (0 < n.length ∧ n.length < (n ++ ['.']).length - 1) := by
    simp only [List.length_append, List.length_cons, List.length_nil]
    omega
  rw [if_neg hng]

theorem pySuffix_cases (n : List Char) :
    pySuffix n = [] ∨
      ∃ p r, n = p ++ '.' :: r ∧ pyStem n = p ∧ pySuffix n = '.' :: r ∧
        '.' ∉ r ∧ p ≠ [] ∧ r ≠ [] := by
  cases h : lastDotIdx n with
  | none =>
      left
      unfold pySuffix
      rw [h]
  | some i =>
      by_cases hg : 0 < i ∧ i < n.length - 1
      · right
        have hlt : i < n.length := lastDotIdx_lt n i h
        obtain ⟨r, hr1, hr2⟩ := lastDotIdx_drop n i h
        refine ⟨n.take i, r, ?_, ?_, ?_, hr2, ?_, ?_⟩
        · rw [← hr1, List.take_append_drop]
        · rw [pyStem_eq_of_idx n i h, if_pos hg]
        · rw [pySuffix_eq_of_idx n i h, if_pos hg, hr1]
        · have : (n.take i).length = i := List.length_take_of_le (le_of_lt hlt)
          intro hc
          rw [hc] at this
          simp at this
          omega
        · have hdl : (n.drop i).length = n.length - i := List.length_drop i n
          rw [hr1] at hdl
          simp only [List.length_cons] at hdl
          intro hc
          rw [hc] at hdl
          simp at hdl
          omega
      · left
        rw [pySuffix_eq_of_idx n i h, if_neg hg]

theorem pyStem_of_suffix_empty (n : List Char) (h : pySuffix n = []) :
    pyStem n = n := by
  cases hi : lastDotIdx n with
  | none =>
      unfold pyStem
      rw [hi]
  | some i =>
      rw [pyStem_eq_of_idx n i hi]
      by_cases hg : 0 < i ∧ i < n.length - 1
      · exfalso
        rw [pySuffix_eq_of_idx n i hi, if_pos hg] at h
        have hlt : i < n.length := lastDotIdx_lt n i hi
        have : (n.drop i).length = n.length - i := List.length_drop i n
        rw [h] at this
        simp at this
        omega
      · rw [if_neg hg]

theorem pySuffix_collisionName (n ts : List Char) (hne : pySuffix n ≠ []) :
    '.' ∉ ts → pySuffix (collisionName n ts) = pySuffix n := by
  intro hts
  rcases pySuffix_cases n with h | ⟨p, r, hn, hstem, hsuf, hr, hp, hrne⟩
  · exact absurd h hne
  · unfold collisionName
    rw [hstem, hsuf]
    exact pySuffix_proper (p ++ '_' :: ts) r (by simp [hp]) hr hrne

theorem getCategoryGo_not_mem (ext : List Char) (t : List (List Char × List (List Char)))
    (h : ∀ cat exts, (cat, exts) ∈ t → pyLower ext ∉ exts) :
    getCategoryGo ext t = chars "misc" := by
  induction t with
  | nil => rfl
  | cons q rest ih =>
      obtain ⟨cat, exts⟩ := q
      simp only [getCategoryGo]
      rw [if_neg (h cat exts (List.mem_cons_self _ _))]
      exact ih fun c x hm => h c x (List.mem_cons_of_mem _ hm)

theorem getCategoryGo_first (ext : List Char) (t : List (List Char × List (List Char)))
    (cat : List Char) (exts : List (List Char))
    (hmem : (cat, exts) ∈ t) (hin : pyLower ext ∈ exts)
    (hdisj : t.Pairwise fun p q => ∀ x ∈ p.2, x ∉ q.2) :
    getCategoryGo ext t = cat := by
  induction t with
  | nil => simp at hmem
  | cons q rest ih =>
      obtain ⟨c0, e0⟩ := q
      simp only [getCategoryGo]
      rcases List.mem_cons.mp hmem with hq | hq
      · obtain ⟨h1, h2⟩ := Prod.mk.injEq .. ▸ hq
        subst h1
        subst h2
        rw [if_pos hin]
      · have hd := (List.pairwise_cons.mp hdisj).1 (cat, exts) hq
        rw [if_neg fun hc => hd (pyLower ext) hc hin]
        exact ih hq (List.pairwise_cons.mp hdisj).2

theorem categories_disjoint :
    categories.Pairwise fun p q => ∀ x ∈ p.2, x ∉ q.2 := by decide

theorem categories_snd_char :
    ∀ p ∈ categories, ∀ e ∈ p.2, ((e.drop 1).head? = some '_') → False := by decide

theorem get_category_dot_underscore (ts : List Char) :
    get_category ('.' :: '_' :: ts) = chars "misc" := by
  apply getCategoryGo_not_mem
  intro cat exts hmem hin
  have hlow : pyLower ('.' :: '_' :: ts) = '.' :: '_' :: pyLower ts := by
    simp only [pyLower, List.map_cons]
    have h1 : pyLowerChar '.' = '.' := by decide
    have h2 : pyLowerChar '_' = '_' := by decide
    rw [h1, h2]
  rw [hlow] at hin
  exact categories_snd_char (cat, exts) hmem _ hin rfl

theorem suffix_empty_guard (n : List Char) (i : Nat) (hi : lastDotIdx n = some i)
    (h : pySuffix n = []) : ¬ (0 < i ∧ i < n.length - 1) := by
  intro hg
  rw [pySuffix_eq_of_idx n i hi, if_pos hg] at h
  have hlt : i < n.length := lastDotIdx_lt n i hi
  have hdl : (n.drop i).length = n.length - i := List.length_drop i n
  rw [h] at hdl
  simp at hdl
  omega

theorem get_category_empty : get_category [] = chars "misc" := by decide

theorem get_category_collisionName (n ts : List Char) (hts : '.' ∉ ts) :
    get_category (pySuffix (collisionName n ts)) = get_category (pySuffix n) := by
  by_cases hne : pySuffix n = []
  · rw [hne]
    have hstem := pyStem_of_suffix_empty n hne
    have hcol : collisionName n ts = n ++ '_' :: ts := by
      unfold collisionName
      rw [hstem, hne, List.append_nil]
    rw [hcol]
    have hnodot : '.' ∉ ('_' :: ts) := by
      intro hc
      rcases List.mem_cons.mp hc with hc1 | hc2
      · exact absurd hc1 (by decide)
      · exact hts hc2
    have h1 := lastDotIdx_append n ('_' :: ts)
    rw [(lastDotIdx_eq_none ('_' :: ts)).mpr hnodot] at h1
    simp only [] at h1
    cases hdn : lastDotIdx n with
    | none =>
        rw [hdn] at h1
        have h2 : pySuffix (n ++ '_' :: ts) = [] := by
          unfold pySuffix
          rw [h1]
        rw [h2]
    | some i =>
        rw [hdn] at h1
        have hguard := suffix_empty_guard n i hdn hne
        have hlt : i < n.length := lastDotIdx_lt n i hdn
        by_cases hz : i = 0
        · subst hz
          have h2 : pySuffix (n ++ '_' :: ts) = [] := by
            rw [pySuffix_eq_of_idx _ 0 h1]
            simp
          rw [h2]
        · have hi1 : 0 < i := Nat.pos_of_ne_zero hz
          have hieq : i = n.length - 1 := by omega
          have hg2 : 0 < i ∧ i < (n ++ '_' :: ts).length - 1 := by
            simp only [List.length_append, List.length_cons]
            omega
          have hdrop : (n ++ '_' :: ts).drop i = n.drop i ++ '_' :: ts :=
            List.drop_append_of_le_length (le_of_lt hlt)
          obtain ⟨r, hr1, _⟩ := lastDotIdx_drop n i hdn
          have hrlen : (n.drop i).length = n.length - i := List.length_drop i n
          rw [hr1] at hrlen
          simp only [List.length_cons] at hrlen
          have hrnil : r = [] := by
            apply List.eq_nil_of_length_eq_zero
            omega
          subst hrnil
          have h2 : pySuffix (n ++ '_' :: ts) = '.' :: '_' :: ts := by
            rw [pySuffix_eq_of_idx _ i h1, if_pos hg2, hdrop, hr1]
            rfl
          rw [h2, get_category_dot_underscore, get_category_empty]
  · rw [pySuffix_collisionName n ts hne hts]

/-- C1: for every input string, `get_category` returns the documented
category when the lowercased input lies in that category's extension set
(the first matching table row in the fixed order wins, the rows being
pairwise disjoint), returns `misc` when no set matches, and classification
is case-insensitive. -/
theorem C1_classify_correct (e : List Char) :
    (∀ cat exts, (cat, exts) ∈ categories → pyLower e ∈ exts → get_category e = cat)
    ∧ ((∀ cat exts, (cat, exts) ∈ categories → pyLower e ∉ exts) →
        get_category e = chars "misc")
    ∧ get_category e = get_category (pyLower e) := by
  refine ⟨?_, ?_, ?_⟩
  · intro cat exts hmem hin
    exact getCategoryGo_first e categories cat exts hmem hin categories_disjoint
  · intro h
    exact getCategoryGo_not_mem e categories h
  · exact getCategoryGo_lower e categories

/-- Witness for C1 at concrete inputs: `.JPG` classifies as `images`,
case-insensitively, and an unknown extension classifies as `misc`. -/
theorem C1_classify_correct_witness :
    get_category (chars ".JPG") = chars "images"
    ∧ get_category (chars ".JPG") = get_category (chars ".jpg")
    ∧ get_category (chars ".xyz") = chars "misc" := by
  refine ⟨?_, ?_, ?_⟩
  · exact (C1_classify_correct (chars ".JPG")).1 (chars "images")
      [chars ".jpg", chars ".jpeg", chars ".png", chars ".gif", chars ".bmp", chars ".svg"]
      (by decide) (by decide)
  · have h := (C1_classify_correct (chars ".JPG")).2.2
    have h2 : pyLower (chars ".JPG") = chars ".jpg" := by decide
    rw [h, h2]
  · apply (C1_classify_correct (chars ".xyz")).2.1
    have hall : ∀ p ∈ categories, pyLower (chars ".xyz") ∉ p.2 := by decide
    intro cat exts hmem hin
    exact hall (cat, exts) hmem hin

/-- Modelled from the spec's words, for comparison with the code: the
extension as "the substring from the last `.` onward, including the dot;
a file with no extension yields an empty string". -/
def specExtension (name : List Char) : List Char :=
  match lastDotIdx name with
  | some i => name.drop i
  | none => []

/-- Counterexample to C5: for the file name `.py` the code's extension
(`Path.suffix`) is empty and classifies as `misc`, while the spec's
"substring from the last dot" is `.py`, which classifies as `code`. -/
theorem C5_counterexample :
    pySuffix (chars ".py") ≠ specExtension (chars ".py")
    ∧ pySuffix (chars ".py") = []
    ∧ get_category (pySuffix (chars ".py")) = chars "misc"
    ∧ get_category (specExtension (chars ".py")) = chars "code" := by decide

/-- C5 amended: the extension used for classification is the substring from
the last `.` onward when that dot is neither the first nor the last
character of the name; a name with no dot, a name whose only dot is the
leading character, and a name ending in a dot all yield the empty string,
and the empty string classifies as `misc`. -/
theorem C5_extension_amended :
    (∀ p r : List Char, p ≠ [] → '.' ∉ r → r ≠ [] →
        pySuffix (p ++ '.' :: r) = '.' :: r)
    ∧ (∀ n : List Char, '.' ∉ n → pySuffix n = [])
    ∧ (∀ r : List Char, '.' ∉ r → pySuffix ('.' :: r) = [])
    ∧ (∀ n : List Char, pySuffix (n ++ ['.']) = [])
    ∧ get_category [] = chars "misc" :=
  ⟨pySuffix_proper, pySuffix_of_no_dot, pySuffix_leading, pySuffix_trailing,
    get_category_empty⟩

/-- Witness for C5 amended at concrete names `a.txt` and `README`. -/
theorem C5_extension_amended_witness :
    pySuffix (chars "a.txt") = chars ".txt" ∧ pySuffix (chars "README") = [] := by
  constructor
  · have h := C5_extension_amended.1 (chars "a") (chars "txt")
      (by decide) (by decide) (by decide)
    have e1 : chars "a" ++ '.' :: chars "txt" = chars "a.txt" := by decide
    have e2 : ('.' :: chars "txt" : List Char) = chars ".txt" := by decide
    rw [e1, e2] at h
    exact h
  · exact C5_extension_amended.2.1 (chars "README") (by decide)

/-- Counterexample to C10: for the colliding name `foo.` (whose
`Path.suffix` is empty) the disambiguated name gains the spurious suffix
`._20240101_000000`, so the extension suffix is not preserved. -/
theorem C10_counterexample :
    pySuffix (collisionName (chars "foo.") (chars "20240101_000000")) ≠
      pySuffix (chars "foo.") := by decide

/-- C10 amended: when the original name has a nonempty suffix the
disambiguated name keeps exactly that suffix; and in every case (also for
empty-suffix names, where a spurious suffix starting `._` can appear) the
disambiguated name classifies to the same category as the original. -/
theorem C10_collision_category_preserved (n ts : List Char) (hts : '.' ∉ ts) :
    (pySuffix n ≠ [] → pySuffix (collisionName n ts) = pySuffix n)
    ∧ get_category (pySuffix (collisionName n ts)) = get_category (pySuffix n) :=
  ⟨fun hne => pySuffix_collisionName n ts hne hts,
    get_category_collisionName n ts hts⟩

/-- Witness for C10 amended at the names `a.txt` and `foo.`. -/
theorem C10_collision_category_preserved_witness :
    pySuffix (collisionName (chars "a.txt") (chars "20240101_000000")) =
      pySuffix (chars "a.txt")
    ∧ get_category (pySuffix (collisionName (chars "foo.") (chars "20240101_000000"))) =
        get_category (pySuffix (chars "foo.")) := by
  constructor
  · exact (C10_collision_category_preserved (chars "a.txt")
      (chars "20240101_000000") (by decide)).1 (by decide)
  · exact (C10_collision_category_preserved (chars "foo.")
      (chars "20240101_000000") (by decide)).2

/-- One decimal digit character (ASCII `'0'` + d mod 10). -/
def digitChar (d : Nat) : Char := Char.ofNat (48 + d % 10)

/-- Zero-padded two-digit strftime field (`%m`, `%d`, `%H`, `%M`, `%S`);
agrees with CPython on the fields' valid ranges (below 100). -/
def pad2 (n : Nat) : List Char := [digitChar (n / 10), digitChar n]

/-- Four-digit strftime year (`%Y`); agrees with CPython for the realistic
clock years 1000-9999. -/
def pad4 (n : Nat) : List Char :=
  [digitChar (n / 1000), digitChar (n / 100), digitChar (n / 10), digitChar n]

/-- The components `datetime.now()` supplies to `strftime`. -/
structure PyDateTime where
  year : Nat
  month : Nat
  day : Nat
  hour : Nat
  minute : Nat
  second : Nat

/-- `datetime.now().strftime("%Y%m%d_%H%M%S")`. -/
def pyTimestamp (dt : PyDateTime) : List Char :=
  pad4 dt.year ++ pad2 dt.month ++ pad2 dt.day ++
    '_' :: (pad2 dt.hour ++ pad2 dt.minute ++ pad2 dt.second)

/-- Decidable check that a string has the shape `YYYYMMDD_HHMMSS`:
eight digits, an underscore, six digits. -/
def tsShape (t : List Char) : Bool :=
  decide (t.length = 15) && (t.take 8).all Char.isDigit &&
    decide ((t.drop 8).take 1 = ['_']) && (t.drop 9).all Char.isDigit

theorem digitChar_isDigit (d : Nat) : (digitChar d).isDigit = true := by
  unfold digitChar
  have hm : d % 10 < 10 := Nat.mod_lt d (by omega)
  set m := d % 10 with hmdef
  interval_cases m <;> decide

theorem digitChar_ne_dot (d : Nat) : digitChar d ≠ '.' := by
  unfold digitChar
  have hm : d % 10 < 10 := Nat.mod_lt d (by omega)
  set m := d % 10 with hmdef
  interval_cases m <;> decide

theorem tsShape_pyTimestamp (dt : PyDateTime) : tsShape (pyTimestamp dt) = true := by
  obtain ⟨y, mo, d, h, mi, s⟩ := dt
  simp only [tsShape, pyTimestamp, pad4, pad2]
  simp [digitChar_isDigit]

theorem dot_not_mem_pyTimestamp (dt : PyDateTime) : '.' ∉ pyTimestamp dt := by
  obtain ⟨y, mo, d, h, mi, s⟩ := dt
  have hform : pyTimestamp ⟨y, mo, d, h, mi, s⟩ =
      [digitChar (y/1000), digitChar (y/100), digitChar (y/10), digitChar y,
       digitChar (mo/10), digitChar mo, digitChar (d/10), digitChar d, '_',
       digitChar (h/10), digitChar h, digitChar (mi/10), digitChar mi,
       digitChar (s/10), digitChar s] := by
    simp [pyTimestamp, pad4, pad2]
  rw [hform]
  intro hmem
  simp only [List.mem_cons, List.not_mem_nil, or_false] at hmem
  rcases hmem with h1|h1|h1|h1|h1|h1|h1|h1|h1|h1|h1|h1|h1|h1|h1
  all_goals first
    | exact digitChar_ne_dot _ h1.symm
    | exact absurd h1 (by decide)

/-- An entry of the destination tree: a child of `organized_files/<cat>/`.
The organizer itself only ever creates regular-file entries; a pre-existing
state may also hold directories (`isFile = false`). -/
structure DFile where
  cat : List Char
  name : List Char
  isFile : Bool
  content : Nat
deriving DecidableEq

/-- A direct child of the source directory at scan time. -/
structure SEntry where
  name : List Char
  isFile : Bool
  content : Nat
deriving DecidableEq

/-- `dest_path.exists()`: some entry (file or directory) occupies
`organized_files/<cat>/<nm>`. -/
def destExists (fs : List DFile) (cat nm : List Char) : Bool :=
  fs.any fun f => decide (f.cat = cat) && decide (f.name = nm)

/-- `shutil.move` of a regular file onto `organized_files/<cat>/<nm>`:
places the file there, silently replacing a regular file already at that
exact path (POSIX rename semantics). -/
def fsPut (fs : List DFile) (cat nm : List Char) (content : Nat) : List DFile :=
  ⟨cat, nm, true, content⟩ ::
    fs.filter fun f => ! (decide (f.cat = cat) && decide (f.name = nm))

/-- Line 72 of the source: `file_path.is_file() and file_path !=
Path('file_organizer.log')`. `Path` equality compares the normalized part
lists, and the child's parts are the source directory's parts plus the
name, while `Path('file_organizer.log')` has the single-part form. -/
def consideredEntry (srcParts : List (List Char)) (e : SEntry) : Bool :=
  e.isFile && ! decide (srcParts ++ [e.name] = [chars "file_organizer.log"])

/-- Nat rendered in decimal, as in an f-string. -/
def natChars (n : Nat) : List Char := chars (Nat.repr n)

/-- State of one `organize_files` run: destination entries, the entries
still sitting in the source directory, both counters, the log, the number
of files examined so far (indexing the clock and fault oracles), and a
ghost flag recording whether any move replaced an existing destination
entry (the same-second double-collision case). -/
structure OState where
  dest : List DFile
  kept : List SEntry
  organized : Nat
  total : Nat
  log : List (List Char)
  step : Nat
  clobbered : Bool
deriving DecidableEq

/-- Line 77: `category = self.get_category(file_extension)` with
`file_extension = file_path.suffix`. -/
def entryCat (e : SEntry) : List Char := get_category (pySuffix e.name)

/-- Lines 81-88: the destination name, after collision handling. The
timestamp is the clock value at this examined file. -/
def moveTarget (now : Nat → List Char) (st : OState) (e : SEntry) : List Char :=
  if destExists st.dest (entryCat e) e.name then collisionName e.name (now st.step)
  else e.name

/-- Lines 73-93 on a successful move: counters, destination tree and log
after one file. The ghost `clobbered` flag records whether this move
replaced an existing destination entry. The log line omits the single
quotes Python prints around the file name. -/
def orgMove (now : Nat → List Char) (st : OState) (e : SEntry) : OState :=
  { st with
    dest := fsPut st.dest (entryCat e) (moveTarget now st e) e.content
    organized := st.organized + 1
    total := st.total + 1
    log := st.log ++
      [chars "Moved " ++ e.name ++ chars " to " ++ entryCat e ++ chars " folder"]
    step := st.step + 1
    clobbered := st.clobbered || destExists st.dest (entryCat e) (moveTarget now st e) }

/-- The loop body of `organize_files` (lines 72-93) for one directory
entry. `now` models `datetime.now().strftime(...)` at each examined file,
`mf` models a `shutil.move` failure (the raised message); on a failure the
file was already counted in `total` but stays in the source directory. -/
def orgStep (sp : List (List Char)) (now : Nat → List Char)
    (mf : Nat → Option (List Char)) (st : OState) (e : SEntry) :
    Except (List Char × OState) OState :=
  if consideredEntry sp e then
    match mf st.step with
    | some msg =>
        Except.error (msg,
          { st with
            total := st.total + 1
            kept := st.kept ++ [e]
            step := st.step + 1 })
    | none => Except.ok (orgMove now st e)
  else
    Except.ok { st with kept := st.kept ++ [e] }

/-- The `for file_path in self.source_dir.iterdir()` loop. On a raised
error the unprocessed entries stay in the source directory. -/
def organizeGo (sp : List (List Char)) (now : Nat → List Char)
    (mf : Nat → Option (List Char)) :
    List SEntry → OState → Except (List Char × OState) OState
  | [], st => Except.ok st
  | e :: es, st =>
      match orgStep sp now mf st e with
      | Except.error p => Except.error (p.1, { p.2 with kept := p.2.kept ++ es })
      | Except.ok st2 => organizeGo sp now mf es st2

/-- The source-directory snapshot a run works on: the supplied source
path's parts, the scanned directory entries in iteration order, and the
entries already under `organized_files/`. -/
structure World where
  srcParts : List (List Char)
  entries : List SEntry
  dest : List DFile

/-- Fault oracles for the three fallible operations (directory creation,
each move, report writing); `some m` means the OS raises with message `m`. -/
structure Faults where
  dirFault : Option (List Char)
  moveFault : Nat → Option (List Char)
  reportFault : Option (List Char)

/-- The state at the top of `organize_files`: both counters zero. -/
def initState (w : World) : OState := ⟨w.dest, [], 0, 0, [], 0, false⟩

/-- The state after a successful `create_directories` call (line 68):
the creation success line has been logged. -/
def orgStart (w : World) : OState :=
  { initState w with log := [chars "Directory structure created successfully"] }

/-- `FileOrganizer.organize_files`: create the layout, loop over the
source entries, log a summary; any error is logged with context and
re-raised (lines 61-101). -/
def organize_files (w : World) (now : Nat → List Char) (flt : Faults) :
    Except (List Char × OState) OState :=
  match flt.dirFault with
  | some m =>
      Except.error (m,
        { initState w with
          log := [chars "Error creating directories: " ++ m,
            chars "Error organizing files: " ++ m] })
  | none =>
      match organizeGo w.srcParts now flt.moveFault w.entries (orgStart w) with
      | Except.error p =>
          Except.error (p.1,
            { p.2 with
              log := p.2.log ++ [chars "Error organizing files: " ++ p.1] })
      | Except.ok st =>
          Except.ok
            { st with
              log := st.log ++
                [chars "Organization complete. Processed " ++ natChars st.organized ++
                  chars " of " ++ natChars st.total ++ chars " files"] }

/-- `len(list(category_dir.glob('*')))`: every immediate child of the
category folder, directories included. -/
def catCount (dest : List DFile) (cat : List Char) : Nat :=
  (dest.filter fun f => decide (f.cat = cat)).length

/-- The number of regular files in a category folder (what claim C8 talks
about, not what the code counts). -/
def regularCount (dest : List DFile) (cat : List Char) : Nat :=
  (dest.filter fun f => decide (f.cat = cat) && f.isFile).length

/-- The text lines `generate_report` builds (lines 103-118). -/
def reportLines (dest : List DFile) : List (List Char) :=
  [chars "File Organization Report", List.replicate 25 '='] ++
    (categories.map fun p =>
      pyCapitalize p.1 ++ chars ": " ++ natChars (catCount dest p.1) ++ chars " files") ++
    [chars "Miscellaneous: " ++ natChars (catCount dest (chars "misc")) ++ chars " files"]

/-- `FileOrganizer.generate_report`: build the lines and write them; a
write failure raises and nothing is written. -/
def generate_report (dest : List DFile) (flt : Option (List Char)) :
    Except (List Char) (List (List Char)) :=
  match flt with
  | some m => Except.error m
  | none => Except.ok (reportLines dest)

/-- Observable outcome of `main` (lines 129-147): what is printed, the
log, the final destination tree, what remains in the source directory,
and the written report (if any). -/
structure MainOut where
  printed : List (List Char)
  log : List (List Char)
  dest : List DFile
  kept : List SEntry
  report : Option (List (List Char))

/-- `main`: run the organizer then the reporter; on any raised error print
the single line `An error occurred: <description>` and stop, leaving all
files where the failure left them. -/
def pyMain (w : World) (now : Nat → List Char) (flt : Faults) : MainOut :=
  match organize_files w now flt with
  | Except.error p =>
      { printed := [chars "An error occurred: " ++ p.1]
        log := p.2.log ++ [chars "Program terminated with error: " ++ p.1]
        dest := p.2.dest
        kept := p.2.kept
        report := none }
  | Except.ok st =>
      match generate_report st.dest flt.reportFault with
      | Except.error m =>
          { printed := [chars "An error occurred: " ++ m]
            log := st.log ++ [chars "Error generating report: " ++ m,
              chars "Program terminated with error: " ++ m]
            dest := st.dest
            kept := st.kept
            report := none }
      | Except.ok lines =>
          { printed := [chars "Organization complete!",
              chars "Processed " ++ natChars st.organized ++ chars " of " ++
                natChars st.total ++ chars " files",
              chars "Check organization_report.txt in the organized_files directory for details",
              chars "Check file_organizer.log for detailed operation logs"]
            log := st.log ++ [chars "Report generated successfully"]
            dest := st.dest
            kept := st.kept
            report := some lines }

/-- The category names in table order. -/
def categoryNames : List (List Char) := categories.map Prod.fst

/-- Directory layout under the organized root, plus the files it holds
(which `mkdir` never touches). -/
structure DirFS where
  rootExists : Bool
  subs : List (List Char)
  files : List DFile
deriving DecidableEq

/-- `Path.mkdir()`: raises `FileExistsError` when the path already exists. -/
def pyMkdir (subs : List (List Char)) (d : List Char) :
    Except (List Char) (List (List Char)) :=
  if d ∈ subs then Except.error (chars "FileExistsError")
  else Except.ok (subs ++ [d])

/-- The guarded pattern `if not category_dir.exists(): category_dir.mkdir()`. -/
def ensureDir (subs : List (List Char)) (d : List Char) :
    Except (List Char) (List (List Char)) :=
  if d ∈ subs then Except.ok subs else pyMkdir subs d

/-- Sequentially ensure a list of subdirectories. -/
def ensureAll : List (List Char) → List (List Char) →
    Except (List Char) (List (List Char))
  | [], subs => Except.ok subs
  | d :: ds, subs =>
      match ensureDir subs d with
      | Except.error m => Except.error m
      | Except.ok subs2 => ensureAll ds subs2

/-- `FileOrganizer.create_directories` (lines 33-52): ensure the organized
root, one folder per category in table order, then `misc`. -/
def create_directories (s : DirFS) : Except (List Char) DirFS :=
  match ensureAll (categoryNames ++ [chars "misc"]) s.subs with
  | Except.error m => Except.error m
  | Except.ok subs2 => Except.ok ⟨true, subs2, s.files⟩

theorem destExists_false (fs : List DFile) (c n : List Char)
    (h : destExists fs c n = false) : ∀ f ∈ fs, ¬(f.cat = c ∧ f.name = n) := by
  intro f hf hcn
  unfold destExists at h
  rw [List.any_eq_false] at h
  have h2 := h f hf
  simp [hcn.1, hcn.2] at h2

theorem mem_fsPut_of_mem (fs : List DFile) (c n : List Char) (v : Nat) (f : DFile)
    (hf : f ∈ fs) (hne : ¬(f.cat = c ∧ f.name = n)) : f ∈ fsPut fs c n v := by
  unfold fsPut
  apply List.mem_cons_of_mem
  rw [List.mem_filter]
  refine ⟨hf, ?_⟩
  have hne2 : ¬f.cat = c ∨ ¬f.name = n := by tauto
  simpa using hne2

theorem orgStep_skip (sp : List (List Char)) (now : Nat → List Char)
    (mf : Nat → Option (List Char)) (st : OState) (e : SEntry)
    (hc : consideredEntry sp e = false) :
    orgStep sp now mf st e = Except.ok { st with kept := st.kept ++ [e] } := by
  simp [orgStep, hc]

theorem orgStep_move (sp : List (List Char)) (now : Nat → List Char)
    (mf : Nat → Option (List Char)) (st : OState) (e : SEntry)
    (hc : consideredEntry sp e = true) (hmf : mf st.step = none) :
    orgStep sp now mf st e = Except.ok (orgMove now st e) := by
  simp [orgStep, hc, hmf]

theorem orgStep_fault (sp : List (List Char)) (now : Nat → List Char)
    (mf : Nat → Option (List Char)) (st : OState) (e : SEntry) (m : List Char)
    (hc : consideredEntry sp e = true) (hmf : mf st.step = some m) :
    orgStep sp now mf st e =
      Except.error (m,
        { st with total := st.total + 1, kept := st.kept ++ [e], step := st.step + 1 }) := by
  simp [orgStep, hc, hmf]

theorem organizeGo_cons_ok (sp : List (List Char)) (now : Nat → List Char)
    (mf : Nat → Option (List Char)) (e : SEntry) (es : List SEntry)
    (st st3 : OState) (hs : orgStep sp now mf st e = Except.ok st3) :
    organizeGo sp now mf (e :: es) st = organizeGo sp now mf es st3 := by
  simp only [organizeGo, hs]

theorem organizeGo_cons_error (sp : List (List Char)) (now : Nat → List Char)
    (mf : Nat → Option (List Char)) (e : SEntry) (es : List SEntry)
    (st : OState) (m : List Char) (st3 : OState)
    (hs : orgStep sp now mf st e = Except.error (m, st3)) :
    organizeGo sp now mf (e :: es) st =
      Except.error (m, { st3 with kept := st3.kept ++ es }) := by
  simp only [organizeGo, hs]

theorem organizeGo_dest_mono (sp : List (List Char)) (now : Nat → List Char)
    (mf : Nat → Option (List Char)) (es : List SEntry) :
    ∀ st st2, organizeGo sp now mf es st = Except.ok st2 →
      st2.clobbered = false →
      st.clobbered = false ∧ ∀ f ∈ st.dest, f ∈ st2.dest := by
  induction es with
  | nil =>
      intro st st2 h hf
      simp only [organizeGo, Except.ok.injEq] at h
      subst h
      exact ⟨hf, fun f hf2 => hf2⟩
  | cons e es ih =>
      intro st st2 h hf
      by_cases hc : consideredEntry sp e = true
      · cases hmf : mf st.step with
        | some m =>
            rw [organizeGo_cons_error sp now mf e es st m _
              (orgStep_fault sp now mf st e m hc hmf)] at h
            exact absurd h (by simp)
        | none =>
            rw [organizeGo_cons_ok sp now mf e es st _
              (orgStep_move sp now mf st e hc hmf)] at h
            obtain ⟨hfl, hsub⟩ := ih (orgMove now st e) st2 h hf
            have hflags : st.clobbered = false ∧
                destExists st.dest (entryCat e) (moveTarget now st e) = false := by
              simpa [orgMove, Bool.or_eq_false_iff] using hfl
            refine ⟨hflags.1, fun f hmem => ?_⟩
            apply hsub
            show f ∈ fsPut st.dest (entryCat e) (moveTarget now st e) e.content
            exact mem_fsPut_of_mem _ _ _ _ f hmem
              (destExists_false _ _ _ hflags.2 f hmem)
      · have hcf : consideredEntry sp e = false := by simpa using hc
        rw [organizeGo_cons_ok sp now mf e es st _
          (orgStep_skip sp now mf st e hcf)] at h
        obtain ⟨hfl, hsub⟩ := ih _ st2 h hf
        exact ⟨hfl, fun f hmem => hsub f hmem⟩

theorem organizeGo_residency (sp : List (List Char)) (now : Nat → List Char)
    (mf : Nat → Option (List Char)) (es : List SEntry) :
    ∀ st st2, organizeGo sp now mf es st = Except.ok st2 →
      st2.clobbered = false →
      ∀ e ∈ es, consideredEntry sp e = true →
        ∃ f ∈ st2.dest, f.isFile = true ∧ f.content = e.content := by
  induction es with
  | nil =>
      intro st st2 h hf e he
      simp at he
  | cons e0 es ih =>
      intro st st2 h hf e he hce
      by_cases hc : consideredEntry sp e0 = true
      · cases hmf : mf st.step with
        | some m =>
            rw [organizeGo_cons_error sp now mf e0 es st m _
              (orgStep_fault sp now mf st e0 m hc hmf)] at h
            exact absurd h (by simp)
        | none =>
            rw [organizeGo_cons_ok sp now mf e0 es st _
              (orgStep_move sp now mf st e0 hc hmf)] at h
            rcases List.mem_cons.mp he with rfl | hees
            · have hhead :
                  (⟨entryCat e, moveTarget now st e, true, e.content⟩ : DFile) ∈
                    (orgMove now st e).dest := by
                show _ ∈ fsPut st.dest (entryCat e) (moveTarget now st e) e.content
                exact List.mem_cons_self _ _
              have hmono := (organizeGo_dest_mono sp now mf es (orgMove now st e) st2 h hf).2
              exact ⟨_, hmono _ hhead, rfl, rfl⟩
            · exact ih _ st2 h hf e hees hce
      · rcases List.mem_cons.mp he with rfl | hees
        · exact absurd hce hc
        · have hcf : consideredEntry sp e0 = false := by simpa using hc
          rw [organizeGo_cons_ok sp now mf e0 es st _
            (orgStep_skip sp now mf st e0 hcf)] at h
          exact ih _ st2 h hf e hees hce

theorem organizeGo_counts_ok (sp : List (List Char)) (now : Nat → List Char)
    (mf : Nat → Option (List Char)) (es : List SEntry) :
    ∀ st st2, organizeGo sp now mf es st = Except.ok st2 →
      st2.total + st.organized = st2.organized + st.total := by
  induction es with
  | nil =>
      intro st st2 h
      simp only [organizeGo, Except.ok.injEq] at h
      subst h
      omega
  | cons e es ih =>
      intro st st2 h
      by_cases hc : consideredEntry sp e = true
      · cases hmf : mf st.step with
        | some m =>
            rw [organizeGo_cons_error sp now mf e es st m _
              (orgStep_fault sp now mf st e m hc hmf)] at h
            exact absurd h (by simp)
        | none =>
            rw [organizeGo_cons_ok sp now mf e es st _
              (orgStep_move sp now mf st e hc hmf)] at h
            have h2 := ih _ _ h
            have e1 : (orgMove now st e).organized = st.organized + 1 := rfl
            have e2 : (orgMove now st e).total = st.total + 1 := rfl
            rw [e1, e2] at h2
            omega
      · have hcf : consideredEntry sp e = false := by simpa using hc
        rw [organizeGo_cons_ok sp now mf e es st _
          (orgStep_skip sp now mf st e hcf)] at h
        have h2 := ih _ _ h
        exact h2

theorem organizeGo_counts_error (sp : List (List Char)) (now : Nat → List Char)
    (mf : Nat → Option (List Char)) (es : List SEntry) :
    ∀ st m st2, organizeGo sp now mf es st = Except.error (m, st2) →
      st2.total + st.organized = st2.organized + st.total + 1 := by
  induction es with
  | nil =>
      intro st m st2 h
      simp [organizeGo] at h
  | cons e es ih =>
      intro st m st2 h
      by_cases hc : consideredEntry sp e = true
      · cases hmf : mf st.step with
        | some m0 =>
            rw [organizeGo_cons_error sp now mf e es st m0 _
              (orgStep_fault sp now mf st e m0 hc hmf)] at h
            simp only [Except.error.injEq, Prod.mk.injEq] at h
            obtain ⟨hm, hst⟩ := h
            subst hst
            show st.total + 1 + st.organized = st.organized + st.total + 1
            omega
        | none =>
            rw [organizeGo_cons_ok sp now mf e es st _
              (orgStep_move sp now mf st e hc hmf)] at h
            have h2 := ih _ _ _ h
            have e1 : (orgMove now st e).organized = st.organized + 1 := rfl
            have e2 : (orgMove now st e).total = st.total + 1 := rfl
            rw [e1, e2] at h2
            omega
      · have hcf : consideredEntry sp e = false := by simpa using hc
        rw [organizeGo_cons_ok sp now mf e es st _
          (orgStep_skip sp now mf st e hcf)] at h
        have h2 := ih _ _ _ h
        exact h2

theorem collisionName_ne (n ts : List Char) : collisionName n ts ≠ n := by
  intro h
  have hlen := congrArg List.length h
  have hsplit := congrArg List.length (pyStem_append_pySuffix n)
  simp only [collisionName, List.length_append, List.length_cons] at hlen hsplit
  omega

theorem organize_files_ok_inv (w : World) (now : Nat → List Char) (flt : Faults)
    (st2 : OState) (h : organize_files w now flt = Except.ok st2) :
    ∃ st3, organizeGo w.srcParts now flt.moveFault w.entries (orgStart w) = Except.ok st3
      ∧ st2.dest = st3.dest ∧ st2.organized = st3.organized ∧ st2.total = st3.total
      ∧ st2.clobbered = st3.clobbered ∧ st2.kept = st3.kept := by
  unfold organize_files at h
  cases hd : flt.dirFault with
  | some m =>
      rw [hd] at h
      simp at h
  | none =>
      rw [hd] at h
      cases hgo : organizeGo w.srcParts now flt.moveFault w.entries (orgStart w) with
      | error p =>
          rw [hgo] at h
          simp at h
      | ok st3 =>
          rw [hgo] at h
          simp only [Except.ok.injEq] at h
          subst h
          exact ⟨st3, rfl, rfl, rfl, rfl, rfl, rfl⟩

theorem organize_files_error_inv (w : World) (now : Nat → List Char) (flt : Faults)
    (m : List Char) (st2 : OState)
    (h : organize_files w now flt = Except.error (m, st2)) :
    (chars "Error organizing files: " ++ m) ∈ st2.log
    ∧ ((flt.dirFault = some m ∧ st2.dest = w.dest ∧ st2.kept = []
          ∧ st2.organized = 0 ∧ st2.total = 0)
       ∨ ∃ st3, organizeGo w.srcParts now flt.moveFault w.entries (orgStart w)
            = Except.error (m, st3)
          ∧ st2.dest = st3.dest ∧ st2.kept = st3.kept
          ∧ st2.organized = st3.organized ∧ st2.total = st3.total) := by
  unfold organize_files at h
  cases hd : flt.dirFault with
  | some m0 =>
      rw [hd] at h
      simp only [Except.error.injEq, Prod.mk.injEq] at h
      obtain ⟨hm, hst⟩ := h
      subst hm
      subst hst
      constructor
      · simp
      · left
        exact ⟨rfl, rfl, rfl, rfl, rfl⟩
  | none =>
      rw [hd] at h
      cases hgo : organizeGo w.srcParts now flt.moveFault w.entries (orgStart w) with
      | error p =>
          rw [hgo] at h
          simp only [Except.error.injEq, Prod.mk.injEq] at h
          obtain ⟨hm, hst⟩ := h
          subst hm
          subst hst
          constructor
          · simp
          · right
            exact ⟨p.2, rfl, rfl, rfl, rfl, rfl⟩
      | ok st3 =>
          rw [hgo] at h
          simp at h

/-- C2 counterexample: destination `documents/` already holds `a.txt` and
`a_20240101_000000.txt` (content 2); moving a new `a.txt` (content 3) while
the clock reads that same second lands on the disambiguated path and
replaces the pre-existing file there, whose content is destroyed. -/
theorem C2_counterexample :
    (organizeGo [] (fun _ => chars "20240101_000000") (fun _ => none)
        [⟨chars "a.txt", true, 3⟩]
        ⟨[⟨chars "documents", chars "a.txt", true, 1⟩,
          ⟨chars "documents", chars "a_20240101_000000.txt", true, 2⟩],
         [], 0, 0, [], 0, false⟩).map
      (fun st => st.dest.map fun f => (f.name, f.content))
      = Except.ok [(chars "a_20240101_000000.txt", 3), (chars "a.txt", 1)] := by
  rfl

/-- C2 amended: provided no move of the run replaces an existing
destination entry (the `clobbered` flag stays false, i.e. no same-second
double collision occurs), every file present under the organized root
before the run is still there, unchanged, afterwards; and a collision
rename always differs from the original name, so the file at the initially
computed path is never the move target. -/
theorem C2_no_clobber_amended (w : World) (now : Nat → List Char) (flt : Faults)
    (st2 : OState) (hrun : organize_files w now flt = Except.ok st2)
    (hflag : st2.clobbered = false) :
    (∀ f ∈ w.dest, f ∈ st2.dest) ∧ ∀ n ts : List Char, collisionName n ts ≠ n := by
  obtain ⟨st3, hgo, hdest, _, _, hflag2, _⟩ := organize_files_ok_inv w now flt st2 hrun
  refine ⟨?_, fun n ts => collisionName_ne n ts⟩
  intro f hf
  rw [hdest]
  have hm := (organizeGo_dest_mono w.srcParts now flt.moveFault w.entries
    (orgStart w) st3 hgo (by rw [← hflag2, hflag])).2
  exact hm f hf

/-- Witness for C2 amended: a clean run of one file into an empty
destination keeps the (empty) pre-existing tree intact. -/
theorem C2_no_clobber_amended_witness :
    (∀ f ∈ ([⟨chars "documents", chars "b.txt", true, 7⟩] : List DFile),
      f ∈ (⟨[⟨chars "documents", chars "b.txt", true, 7⟩,
             ⟨chars "documents", chars "a.txt", true, 3⟩], [], 1, 1,
            [chars "Directory structure created successfully",
             chars "Moved a.txt to documents folder"], 1, false⟩ : OState).dest)
    ∧ ∀ n ts : List Char, collisionName n ts ≠ n := by
  have h := C2_no_clobber_amended
    ⟨[], [⟨chars "a.txt", true, 3⟩], [⟨chars "documents", chars "b.txt", true, 7⟩]⟩
    (fun _ => chars "20240101_000000")
    ⟨none, fun _ => none, none⟩
    ⟨[⟨chars "documents", chars "a.txt", true, 3⟩,
      ⟨chars "documents", chars "b.txt", true, 7⟩], [], 1, 1,
     [chars "Directory structure created successfully",
      chars "Moved a.txt to documents folder",
      chars "Organization complete. Processed 1 of 1 files"], 1, false⟩
    (by rfl) (by rfl)
  exact ⟨fun f hf => by
    have h2 := h.1 f hf
    simp only [List.mem_cons, List.not_mem_nil, or_false] at h2 ⊢
    tauto, h.2⟩

/-- C3 counterexample: source holds `a_20250101_120000.txt` (content 1)
and `a.txt` (content 2); `documents/a.txt` already exists. The second move
collides and its timestamped rename coincides with the first file's name,
replacing it: the run ends without error with `organized = total = 2`, yet
content 1 no longer resides anywhere under the organized root. -/
theorem C3_counterexample :
    (organizeGo [] (fun _ => chars "20250101_120000") (fun _ => none)
        [⟨chars "a_20250101_120000.txt", true, 1⟩, ⟨chars "a.txt", true, 2⟩]
        ⟨[⟨chars "documents", chars "a.txt", true, 9⟩], [], 0, 0, [], 0, false⟩).map
      (fun st => (st.organized, st.total, st.dest.map fun f => (f.name, f.content)))
      = Except.ok (2, 2,
          [(chars "a_20250101_120000.txt", 2), (chars "a.txt", 9)]) := by
  rfl

/-- C3 amended: `organized_count` never exceeds `total_count` - indeed the
two are equal after every completed loop iteration and differ by exactly
one (the counted, unmoved file) at an error; when the run returns without
error they are equal; and provided no move of the run replaced an existing
destination entry (no same-second double collision), every considered
source file's content resides under the organized root afterwards. -/
theorem C3_conservation (w : World) (now : Nat → List Char) (flt : Faults) :
    (∀ xs ys st3, w.entries = xs ++ ys →
        organizeGo w.srcParts now flt.moveFault xs (orgStart w) = Except.ok st3 →
        st3.organized ≤ st3.total)
    ∧ (∀ m st3, organize_files w now flt = Except.error (m, st3) →
        st3.organized ≤ st3.total)
    ∧ (∀ st2, organize_files w now flt = Except.ok st2 →
        st2.organized = st2.total
        ∧ (st2.clobbered = false →
            ∀ e ∈ w.entries, consideredEntry w.srcParts e = true →
              ∃ f ∈ st2.dest, f.isFile = true ∧ f.content = e.content)) := by
  refine ⟨?_, ?_, ?_⟩
  · intro xs ys st3 hsplit hrun
    have h := organizeGo_counts_ok w.srcParts now flt.moveFault xs (orgStart w) st3 hrun
    have h0 : (orgStart w).organized = 0 := rfl
    have h1 : (orgStart w).total = 0 := rfl
    rw [h0, h1] at h
    omega
  · intro m st3 herr
    rcases (organize_files_error_inv w now flt m st3 herr).2 with
      ⟨_, _, _, ho, ht⟩ | ⟨st4, hgo, _, _, ho, ht⟩
    · omega
    · have h := organizeGo_counts_error w.srcParts now flt.moveFault w.entries
        (orgStart w) m st4 hgo
      have h0 : (orgStart w).organized = 0 := rfl
      have h1 : (orgStart w).total = 0 := rfl
      rw [h0, h1] at h
      omega
  · intro st2 hok
    obtain ⟨st3, hgo, hdest, ho, ht, hcl, _⟩ := organize_files_ok_inv w now flt st2 hok
    constructor
    · have h := organizeGo_counts_ok w.srcParts now flt.moveFault w.entries
        (orgStart w) st3 hgo
      have h0 : (orgStart w).organized = 0 := rfl
      have h1 : (orgStart w).total = 0 := rfl
      rw [h0, h1] at h
      omega
    · intro hflag e he hce
      have hres := organizeGo_residency w.srcParts now flt.moveFault w.entries
        (orgStart w) st3 hgo (by rw [← hcl, hflag]) e he hce
      rw [hdest]
      exact hres

/-- Witness for C3 at a concrete clean run of two files. -/
theorem C3_conservation_witness :
    ((⟨[⟨chars "documents", chars "a.txt", true, 3⟩], [], 1, 1,
        [chars "Directory structure created successfully",
         chars "Moved a.txt to documents folder"], 1, false⟩ : OState).organized ≤
      (⟨[⟨chars "documents", chars "a.txt", true, 3⟩], [], 1, 1,
        [chars "Directory structure created successfully",
         chars "Moved a.txt to documents folder"], 1, false⟩ : OState).total)
    ∧ (⟨[⟨chars "misc", chars "b", true, 4⟩, ⟨chars "documents", chars "a.txt", true, 3⟩],
        [], 2, 2,
        [chars "Directory structure created successfully",
         chars "Moved a.txt to documents folder",
         chars "Moved b to misc folder",
         chars "Organization complete. Processed 2 of 2 files"], 2, false⟩ : OState).organized
      = (⟨[⟨chars "misc", chars "b", true, 4⟩, ⟨chars "documents", chars "a.txt", true, 3⟩],
          [], 2, 2,
          [chars "Directory structure created successfully",
           chars "Moved a.txt to documents folder",
           chars "Moved b to misc folder",
           chars "Organization complete. Processed 2 of 2 files"], 2, false⟩ : OState).total := by
  constructor
  · exact (C3_conservation
      ⟨[], [⟨chars "a.txt", true, 3⟩, ⟨chars "b", true, 4⟩], []⟩
      (fun _ => chars "20240101_000000") ⟨none, fun _ => none, none⟩).1
      [⟨chars "a.txt", true, 3⟩] [⟨chars "b", true, 4⟩] _ rfl rfl
  · exact ((C3_conservation
      ⟨[], [⟨chars "a.txt", true, 3⟩, ⟨chars "b", true, 4⟩], []⟩
      (fun _ => chars "20240101_000000") ⟨none, fun _ => none, none⟩).2.2 _ rfl).1

/-- C4: the loop compares the child's full path with the bare relative
path `Path('file_organizer.log')`, so the log file is excluded only when
the user typed `.` (or an equivalent empty path) as the source directory.
For any other spelling, e.g. `data`, a file named `file_organizer.log` in
the source directory is counted and moved to `misc`, contradicting the
documented unconditional exclusion. -/
theorem C4_log_exclusion_depends_on_path :
    ((organizeGo [chars "data"] (fun _ => []) (fun _ => none)
        [⟨chars "file_organizer.log", true, 7⟩] ⟨[], [], 0, 0, [], 0, false⟩).map
      (fun st => (st.total, st.organized, st.dest.map fun f => (f.cat, f.name), st.kept))
      = Except.ok (1, 1, [(chars "misc", chars "file_organizer.log")], []))
    ∧ ((organizeGo [] (fun _ => []) (fun _ => none)
        [⟨chars "file_organizer.log", true, 7⟩] ⟨[], [], 0, 0, [], 0, false⟩).map
      (fun st => (st.total, st.organized, st.dest, st.kept.map SEntry.name))
      = Except.ok (0, 0, [], [chars "file_organizer.log"])) := by
  constructor
  · rfl
  · rfl

/-- C6: when the initially computed destination path is occupied, the loop
body moves the file, within the same category folder, to the name built
from the original stem, an underscore, the `%Y%m%d_%H%M%S` timestamp of
the move, and the original extension; the timestamp has the
`YYYYMMDD_HHMMSS` shape. -/
theorem C6_collision_rename (sp : List (List Char)) (now : Nat → List Char)
    (mf : Nat → Option (List Char)) (st : OState) (e : SEntry) (dt : PyDateTime)
    (hc : consideredEntry sp e = true)
    (hex : destExists st.dest (entryCat e) e.name = true)
    (hmf : mf st.step = none)
    (hnow : now st.step = pyTimestamp dt) :
    orgStep sp now mf st e = Except.ok (orgMove now st e)
    ∧ (orgMove now st e).dest =
        fsPut st.dest (entryCat e)
          (pyStem e.name ++ '_' :: pyTimestamp dt ++ pySuffix e.name) e.content
    ∧ (⟨entryCat e, pyStem e.name ++ '_' :: pyTimestamp dt ++ pySuffix e.name,
          true, e.content⟩ : DFile) ∈ (orgMove now st e).dest
    ∧ tsShape (pyTimestamp dt) = true := by
  have hmt : moveTarget now st e =
      pyStem e.name ++ '_' :: pyTimestamp dt ++ pySuffix e.name := by
    unfold moveTarget
    simp [hex, hnow, collisionName]
  refine ⟨orgStep_move sp now mf st e hc hmf, ?_, ?_, tsShape_pyTimestamp dt⟩
  · show fsPut st.dest (entryCat e) (moveTarget now st e) e.content = _
    rw [hmt]
  · show _ ∈ fsPut st.dest (entryCat e) (moveTarget now st e) e.content
    rw [hmt]
    exact List.mem_cons_self _ _

/-- Witness for C6: moving `a.txt` onto an occupied `documents/a.txt` at
2024-03-07 15:09:42. -/
theorem C6_collision_rename_witness :
    orgStep [] (fun _ => pyTimestamp ⟨2024, 3, 7, 15, 9, 42⟩) (fun _ => none)
        ⟨[⟨chars "documents", chars "a.txt", true, 1⟩], [], 0, 0, [], 0, false⟩
        ⟨chars "a.txt", true, 5⟩
      = Except.ok (orgMove (fun _ => pyTimestamp ⟨2024, 3, 7, 15, 9, 42⟩)
          ⟨[⟨chars "documents", chars "a.txt", true, 1⟩], [], 0, 0, [], 0, false⟩
          ⟨chars "a.txt", true, 5⟩)
    ∧ tsShape (pyTimestamp ⟨2024, 3, 7, 15, 9, 42⟩) = true := by
  have h := C6_collision_rename [] (fun _ => pyTimestamp ⟨2024, 3, 7, 15, 9, 42⟩)
    (fun _ => none)
    ⟨[⟨chars "documents", chars "a.txt", true, 1⟩], [], 0, 0, [], 0, false⟩
    ⟨chars "a.txt", true, 5⟩ ⟨2024, 3, 7, 15, 9, 42⟩
    (by decide) (by decide) rfl rfl
  exact ⟨h.1, h.2.2.2⟩

theorem ensureDir_mem (subs : List (List Char)) (d : List Char) (h : d ∈ subs) :
    ensureDir subs d = Except.ok subs := by
  simp [ensureDir, h]

theorem ensureDir_not_mem (subs : List (List Char)) (d : List Char) (h : d ∉ subs) :
    ensureDir subs d = Except.ok (subs ++ [d]) := by
  simp [ensureDir, pyMkdir, h]

theorem ensureAll_cons (d : List Char) (ds : List (List Char))
    (subs subs1 : List (List Char)) (h : ensureDir subs d = Except.ok subs1) :
    ensureAll (d :: ds) subs = ensureAll ds subs1 := by
  simp only [ensureAll, h]

theorem ensureAll_sub (ds : List (List Char)) :
    ∀ subs subs2, ensureAll ds subs = Except.ok subs2 → ∀ x ∈ subs, x ∈ subs2 := by
  induction ds with
  | nil =>
      intro subs subs2 h x hx
      simp only [ensureAll, Except.ok.injEq] at h
      subst h
      exact hx
  | cons d ds ih =>
      intro subs subs2 h x hx
      by_cases hd : d ∈ subs
      · rw [ensureAll_cons d ds subs subs (ensureDir_mem subs d hd)] at h
        exact ih subs subs2 h x hx
      · rw [ensureAll_cons d ds subs (subs ++ [d]) (ensureDir_not_mem subs d hd)] at h
        exact ih _ subs2 h x (List.mem_append_left _ hx)

theorem ensureAll_mem (ds : List (List Char)) :
    ∀ subs subs2, ensureAll ds subs = Except.ok subs2 → ∀ d ∈ ds, d ∈ subs2 := by
  induction ds with
  | nil =>
      intro subs subs2 h d hd
      simp at hd
  | cons d0 ds ih =>
      intro subs subs2 h d hd
      rcases List.mem_cons.mp hd with rfl | hds
      · by_cases hd0 : d ∈ subs
        · rw [ensureAll_cons d ds subs subs (ensureDir_mem subs d hd0)] at h
          exact ensureAll_sub ds subs subs2 h d hd0
        · rw [ensureAll_cons d ds subs (subs ++ [d]) (ensureDir_not_mem subs d hd0)] at h
          exact ensureAll_sub ds _ subs2 h d (List.mem_append_right _ (List.mem_singleton.mpr rfl))
      · by_cases hd0 : d0 ∈ subs
        · rw [ensureAll_cons d0 ds subs subs (ensureDir_mem subs d0 hd0)] at h
          exact ih subs subs2 h d hds
        · rw [ensureAll_cons d0 ds subs (subs ++ [d0]) (ensureDir_not_mem subs d0 hd0)] at h
          exact ih _ subs2 h d hds

theorem ensureAll_idem (ds : List (List Char)) :
    ∀ subs, (∀ d ∈ ds, d ∈ subs) → ensureAll ds subs = Except.ok subs := by
  induction ds with
  | nil => intro subs _; rfl
  | cons d ds ih =>
      intro subs hall
      rw [ensureAll_cons d ds subs subs
        (ensureDir_mem subs d (hall d (List.mem_cons_self _ _)))]
      exact ih subs fun x hx => hall x (List.mem_cons_of_mem _ hx)

theorem create_directories_of_all (s : DirFS)
    (hall : ∀ d ∈ categoryNames ++ [chars "misc"], d ∈ s.subs) :
    create_directories s = Except.ok ⟨true, s.subs, s.files⟩ := by
  unfold create_directories
  rw [ensureAll_idem _ s.subs hall]

/-- C7: layout creation is idempotent: after a successful call, a second
call succeeds, raises no error, yields exactly the same directory set, and
neither call has deleted any pre-existing directory or any file content. -/
theorem C7_create_directories_idempotent (s s2 : DirFS)
    (h : create_directories s = Except.ok s2) :
    create_directories s2 = Except.ok s2
    ∧ s2.files = s.files
    ∧ (∀ d ∈ s.subs, d ∈ s2.subs)
    ∧ s2.rootExists = true := by
  unfold create_directories at h
  cases hgo : ensureAll (categoryNames ++ [chars "misc"]) s.subs with
  | error m =>
      rw [hgo] at h
      simp at h
  | ok subs2 =>
      rw [hgo] at h
      simp only [Except.ok.injEq] at h
      subst h
      refine ⟨?_, rfl, ?_, rfl⟩
      · exact create_directories_of_all ⟨true, subs2, s.files⟩
          (ensureAll_mem _ s.subs subs2 hgo)
      · exact ensureAll_sub _ s.subs subs2 hgo

/-- Witness for C7: provisioning an empty root creates the seven folders
once, and the theorem's conclusions hold for that concrete state. -/
theorem C7_create_directories_idempotent_witness :
    create_directories
        ⟨true, [chars "documents", chars "images", chars "audio", chars "videos",
          chars "archives", chars "code", chars "misc"], []⟩
      = Except.ok
        ⟨true, [chars "documents", chars "images", chars "audio", chars "videos",
          chars "archives", chars "code", chars "misc"], []⟩ := by
  exact (C7_create_directories_idempotent ⟨false, [], []⟩
    ⟨true, [chars "documents", chars "images", chars "audio", chars "videos",
      chars "archives", chars "code", chars "misc"], []⟩ (by rfl)).1

/-- C8 counterexample: a category folder holding one subdirectory and no
regular file is reported as `Documents: 1 files`, because `glob('*')`
counts every child, not only regular files. -/
theorem C8_counterexample :
    catCount [⟨chars "documents", chars "sub", false, 0⟩] (chars "documents") = 1
    ∧ regularCount [⟨chars "documents", chars "sub", false, 0⟩] (chars "documents") = 0
    ∧ (reportLines [⟨chars "documents", chars "sub", false, 0⟩]).get? 2
        = some (chars "Documents: 1 files") := by
  refine ⟨rfl, rfl, rfl⟩

/-- C8 amended: each category's report line carries the number of
immediate children of that category's folder (directories included), and
this equals the number of regular files exactly when the folder holds only
regular files. -/
theorem C8_report_counts (dest : List DFile) :
    (∀ cat exts, (cat, exts) ∈ categories →
        (pyCapitalize cat ++ chars ": " ++ natChars (catCount dest cat) ++ chars " files")
          ∈ reportLines dest)
    ∧ (chars "Miscellaneous: " ++ natChars (catCount dest (chars "misc")) ++ chars " files")
        ∈ reportLines dest
    ∧ ∀ cat, (∀ f ∈ dest, f.cat = cat → f.isFile = true) →
        catCount dest cat = regularCount dest cat := by
  refine ⟨?_, ?_, ?_⟩
  · intro cat exts hmem
    unfold reportLines
    exact List.mem_append_left _
      (List.mem_append_right _ (List.mem_map.mpr ⟨(cat, exts), hmem, rfl⟩))
  · unfold reportLines
    exact List.mem_append_right _ (List.mem_singleton.mpr rfl)
  · intro cat hall
    unfold catCount regularCount
    congr 1
    apply List.filter_congr
    intro f hf
    by_cases hc : f.cat = cat
    · simp [hc, hall f hf hc]
    · simp [hc]

/-- Witness for C8 at a one-file destination tree. -/
theorem C8_report_counts_witness :
    (pyCapitalize (chars "documents") ++ chars ": " ++
        natChars (catCount [⟨chars "documents", chars "a.txt", true, 3⟩] (chars "documents")) ++
        chars " files")
      ∈ reportLines [⟨chars "documents", chars "a.txt", true, 3⟩]
    ∧ catCount [⟨chars "documents", chars "a.txt", true, 3⟩] (chars "documents")
        = regularCount [⟨chars "documents", chars "a.txt", true, 3⟩] (chars "documents") := by
  constructor
  · exact (C8_report_counts [⟨chars "documents", chars "a.txt", true, 3⟩]).1
      (chars "documents")
      [chars ".pdf", chars ".doc", chars ".docx", chars ".txt", chars ".rtf", chars ".odt"]
      (by decide)
  · exact (C8_report_counts [⟨chars "documents", chars "a.txt", true, 3⟩]).2.2
      (chars "documents") (by decide)

/-- C9: whatever stage fails - directory creation, a move, or report
writing - the error is logged with its context line, re-raised to `main`,
and the user sees exactly the one line `An error occurred: <description>`;
the destination tree and the source leftovers are exactly those of the
failure state, with no rollback and no retry. -/
theorem C9_error_propagation (w : World) (now : Nat → List Char) (flt : Faults) :
    (∀ m st, organize_files w now flt = Except.error (m, st) →
        (pyMain w now flt).printed = [chars "An error occurred: " ++ m]
        ∧ (chars "Error organizing files: " ++ m) ∈ (pyMain w now flt).log
        ∧ (chars "Program terminated with error: " ++ m) ∈ (pyMain w now flt).log
        ∧ (pyMain w now flt).dest = st.dest
        ∧ (pyMain w now flt).kept = st.kept
        ∧ (pyMain w now flt).report = none)
    ∧ (∀ m st, organize_files w now flt = Except.ok st → flt.reportFault = some m →
        (pyMain w now flt).printed = [chars "An error occurred: " ++ m]
        ∧ (chars "Error generating report: " ++ m) ∈ (pyMain w now flt).log
        ∧ (chars "Program terminated with error: " ++ m) ∈ (pyMain w now flt).log
        ∧ (pyMain w now flt).dest = st.dest
        ∧ (pyMain w now flt).report = none)
    ∧ (∀ m, flt.dirFault = some m →
        (chars "Error creating directories: " ++ m) ∈ (pyMain w now flt).log
        ∧ (pyMain w now flt).printed = [chars "An error occurred: " ++ m]) := by
  refine ⟨?_, ?_, ?_⟩
  · intro m st h
    have hlog := (organize_files_error_inv w now flt m st h).1
    unfold pyMain
    rw [h]
    refine ⟨rfl, ?_, ?_, rfl, rfl, rfl⟩
    · show _ ∈ st.log ++ [chars "Program terminated with error: " ++ m]
      exact List.mem_append_left _ hlog
    · show _ ∈ st.log ++ [chars "Program terminated with error: " ++ m]
      exact List.mem_append_right _ (List.mem_singleton.mpr rfl)
  · intro m st hok hrf
    have hgr : generate_report st.dest flt.reportFault = Except.error m := by
      simp [generate_report, hrf]
    unfold pyMain
    rw [hok]
    simp only [hgr]
    refine ⟨by trivial, ?_, ?_, by trivial, by trivial⟩
    · show _ ∈ st.log ++ [chars "Error generating report: " ++ m,
        chars "Program terminated with error: " ++ m]
      exact List.mem_append_right _ (List.mem_cons_self _ _)
    · show _ ∈ st.log ++ [chars "Error generating report: " ++ m,
        chars "Program terminated with error: " ++ m]
      exact List.mem_append_right _ (List.mem_cons_of_mem _ (List.mem_cons_self _ _))
  · intro m hd
    have herr : organize_files w now flt =
        Except.error (m,
          { initState w with
            log := [chars "Error creating directories: " ++ m,
              chars "Error organizing files: " ++ m] }) := by
      unfold organize_files
      rw [hd]
    unfold pyMain
    rw [herr]
    constructor
    · show _ ∈ [chars "Error creating directories: " ++ m,
        chars "Error organizing files: " ++ m] ++
          [chars "Program terminated with error: " ++ m]
      exact List.mem_append_left _ (List.mem_cons_self _ _)
    · rfl

/-- Witness for C9: a permission failure on the only move. -/
theorem C9_error_propagation_witness :
    (pyMain ⟨[], [⟨chars "a.txt", true, 5⟩], []⟩ (fun _ => [])
        ⟨none, fun _ => some (chars "Permission denied"), none⟩).printed
      = [chars "An error occurred: Permission denied"]
    ∧ (chars "Error organizing files: Permission denied")
        ∈ (pyMain ⟨[], [⟨chars "a.txt", true, 5⟩], []⟩ (fun _ => [])
            ⟨none, fun _ => some (chars "Permission denied"), none⟩).log := by
  have h := (C9_error_propagation ⟨[], [⟨chars "a.txt", true, 5⟩], []⟩ (fun _ => [])
    ⟨none, fun _ => some (chars "Permission denied"), none⟩).1
    (chars "Permission denied")
    ⟨[], [⟨chars "a.txt", true, 5⟩], 0, 1,
     [chars "Directory structure created successfully",
      chars "Error organizing files: Permission denied"], 1, false⟩
    (by rfl)
  exact ⟨h.1, h.2.1⟩
